import Mathlib

/-!
Verification development for the `web-crawler` repository.

Each Python crawler variant cited by the specification is shallowly embedded
as executable Lean definitions:

* `Crawler2` — `src/crawler2.py` (sequential BFS crawler with chunked output)
* `Modern`   — `src/crawler.py` (`ModernWebCrawler`, batched async crawler,
  `RateLimiter`, content-hash dedup backed by the page store)
* `SrcCrawler` — `src/src/crawler.py` (depth-first recursive crawler)
* `Pro1`     — `src/.other/pro1/web_crawler` (`crawler/utils.py` URL filter,
  `crawler/robots.py` robots parser, `crawler/core.py` fetch)

External collaborators (HTTP transport, HTML parsing / link resolution,
hashing) are passed in as oracle functions, mirroring the interfaces named
in section 6 of the specification.  Python library helpers used by the code
(`urllib.parse.urlparse`, `str.lower`, `in`, `str.strip`, `str.splitlines`)
are modelled explicitly below.
-/

/-- Model of Python `str.lower` for ASCII strings. -/
def pyLower (s : String) : String :=
  String.mk (s.data.map Char.toLower)

/-- Decides whether the character list `p` occurs contiguously inside a
character list; models the Python substring test on strings. -/
def subOccurs (p : List Char) : List Char → Bool
  | [] => p.isEmpty
  | c :: t => p.isPrefixOf (c :: t) || subOccurs p t

/-- Model of the Python membership test `pat in s` on strings. -/
def pyIn (pat s : String) : Bool :=
  subOccurs pat.data s.data

/-- Model of Python `str.startswith`. -/
def pyStartsWith (s pre : String) : Bool :=
  pre.data.isPrefixOf s.data

/-- Model of Python `str.strip` (ASCII whitespace at both ends). -/
def pyStrip (s : String) : String :=
  String.mk ((s.data.dropWhile Char.isWhitespace).reverse.dropWhile
    Char.isWhitespace).reverse

/-- Splits a character list on a separator character. -/
def splitOnChar (sep : Char) : List Char → List (List Char)
  | [] => [[]]
  | c :: t =>
    if c = sep then [] :: splitOnChar sep t
    else
      match splitOnChar sep t with
      | [] => [[c]]
      | piece :: rest => (c :: piece) :: rest

/-- Model of Python `str.splitlines` restricted to newline separators:
splits on newline characters and drops the trailing empty piece produced by
a final newline. -/
def pySplitlines (s : String) : List String :=
  match s.data with
  | [] => []
  | cs =>
    let pieces := splitOnChar '\n' cs
    let pieces := if cs.getLast? = some '\n' then pieces.dropLast else pieces
    pieces.map String.mk

/-- Splits a character list at the first occurrence of `c`, if any. -/
def splitFirst (c : Char) : List Char → Option (List Char × List Char)
  | [] => none
  | x :: xs =>
    if x = c then some ([], xs)
    else (splitFirst c xs).map (fun p => (x :: p.1, p.2))

/-- Model of Python `s.split(c, 1)[1]` for a colon separator: everything
after the first colon.  All call sites in the sources guard with a
`startswith` test on a prefix containing a colon, so the colon exists. -/
def pyAfterColon (s : String) : String :=
  match splitFirst ':' s.data with
  | some (_, after) => String.mk after
  | none => ""

/-- Model of Python `str.rstrip` for a single character. -/
def pyRstrip (c : Char) (s : String) : String :=
  String.mk (s.data.reverse.dropWhile (· = c)).reverse

/-- The components of a parsed URL used by the crawlers. -/
structure UrlParts where
  scheme : String
  netloc : String
  path : String
  deriving Repr, DecidableEq

/-- Characters that may appear in a URL scheme after the leading letter. -/
def isSchemeChar (c : Char) : Bool :=
  c.isAlphanum || c = '+' || c = '-' || c = '.'

/-- Model of `urllib.parse.urlparse` restricted to the `scheme`, `netloc`
and `path` components consumed by the crawlers: the scheme is recognised
before the first colon when it starts with a letter and uses scheme
characters only, the network location follows a double slash and runs to
the next slash, question mark or hash, and the path runs to the next
question mark or hash. -/
def urlparse (url : String) : UrlParts :=
  let cs := url.data
  let (scheme, rest) :=
    match splitFirst ':' cs with
    | some (before, after) =>
      match before with
      | [] => (([] : List Char), cs)
      | b :: bs =>
        if b.isAlpha && bs.all isSchemeChar then ((b :: bs).map Char.toLower, after)
        else ([], cs)
    | none => ([], cs)
  let (netloc, rest2) :=
    match rest with
    | '/' :: '/' :: r =>
      (r.takeWhile (fun c => c ≠ '/' && c ≠ '?' && c ≠ '#'),
       r.dropWhile (fun c => c ≠ '/' && c ≠ '?' && c ≠ '#'))
    | _ => (([] : List Char), rest)
  let path := rest2.takeWhile (fun c => c ≠ '?' && c ≠ '#')
  ⟨String.mk scheme, String.mk netloc, String.mk path⟩

namespace Crawler2

/-- The literal exclusion list `exclude` at the top of `src/crawler2.py`. -/
def exclude : List String :=
  [ "lang=go", "lang=node", "lang=rest", "lang=ruby",
    "lang=java", "lang=javascript", "lang=php", "lang=typescript",
    "#",
    "/login", "/signin", "/signup", "/register",
    "/logout", "/signout", "/auth/",
    "/password", "/reset", "/forgot",
    "/settings", "/profile", "/account", "/preferences",
    "/dashboard", "/admin", "/user/",
    "/search", "/filter", "/sort",
    "/print", "/download", "/upload",
    "/raw/", "/blame/", "/commits/",
    "/comment", "/like", "/share", "/follow",
    "/graphql", "/webhook",
    "/feeds/", "/rss/", "/atom/",
    "/session", "/track", "/analytics",
    "/pulse/", "/network/", "/graphs/",
    "/issues/new", "/pull/", "/compare/",
    "/edit/", "/delete/", "/archive/",
    "/stargazers", "/subscribers", "/fork" ]

/-- `WebCrawler.is_valid_url` from `src/crawler2.py`: reject on any
exclusion literal occurring in the lowercased URL, then require the
crawler domain to occur in the netloc and the path to start with the base
path. -/
def is_valid_url (domain base_path url : String) : Bool :=
  let parsed := urlparse url
  if exclude.any (fun pattern => pyIn pattern (pyLower url)) then false
  else pyIn domain parsed.netloc && pyStartsWith parsed.path base_path

/-- A page record as appended to `current_chunk` by `crawl`; only the
fields the claims mention are carried. -/
structure Page where
  url : String
  links : List String
  deriving Repr, DecidableEq

/-- The mutable attributes of `crawler2.WebCrawler` touched by `crawl` and
`save_chunk`; `chunks` records each file emitted by `save_chunk` as its
chunk number paired with its pages. -/
structure St where
  visited : List String
  current_chunk : List Page
  chunk_counter : Nat
  total_pages : Nat
  chunks : List (Nat × List Page)
  deriving Repr, DecidableEq

/-- The state of a freshly constructed `WebCrawler`. -/
def St.init : St :=
  ⟨[], [], 1, 0, []⟩

/-- `WebCrawler.save_chunk`: a no-op on an empty buffer, otherwise emits
the buffer under the current chunk number, clears it and increments the
counter. -/
def save_chunk (st : St) : St :=
  if st.current_chunk = [] then st
  else
    { st with
      chunks := st.chunks ++ [(st.chunk_counter, st.current_chunk)]
      current_chunk := []
      chunk_counter := st.chunk_counter + 1 }

/-- One source-level description of `WebCrawler.crawl`, fuelled to make the
`while` loop structural.  `fetch` is the HTTP-and-parse collaborator: it
yields the absolute resolved anchor URLs of a page, or `none` when
`get_page_content` fails.  The validity filter of `extract_links` is
applied to its output exactly as in the source. -/
def budgetOpen (max_pages : Option Nat) (total : Nat) : Bool :=
  match max_pages with
  | none => true
  | some p => total < p

def crawlLoop (fetch : String → Option (List String)) (domain base_path : String)
    (chunk_size : Nat) (max_pages : Option Nat) :
    Nat → List String → St → St
  | 0, _, st => st
  | fuel + 1, urls_to_visit, st =>
    match urls_to_visit with
    | [] => st
    | current_url :: rest =>
      if budgetOpen max_pages st.total_pages then
        if current_url ∈ st.visited then
          crawlLoop fetch domain base_path chunk_size max_pages fuel rest st
        else
          let st := { st with visited := st.visited ++ [current_url] }
          match fetch current_url with
          | none => crawlLoop fetch domain base_path chunk_size max_pages fuel rest st
          | some raw =>
            let links := raw.filter (is_valid_url domain base_path)
            let page : Page := ⟨current_url, links⟩
            let st := { st with
              current_chunk := st.current_chunk ++ [page]
              total_pages := st.total_pages + 1 }
            let st := if chunk_size ≤ st.current_chunk.length then save_chunk st else st
            crawlLoop fetch domain base_path chunk_size max_pages fuel
              (rest ++ links.filter (fun u => u ∉ st.visited)) st
      else st

/-- `WebCrawler.crawl` from `src/crawler2.py`: run the loop from the base
URL, then flush any remaining partial chunk. -/
def crawl (fetch : String → Option (List String)) (domain base_path : String)
    (chunk_size : Nat) (max_pages : Option Nat) (fuel : Nat) (base_url : String) : St :=
  let st := crawlLoop fetch domain base_path chunk_size max_pages fuel [base_url] St.init
  if st.current_chunk ≠ [] then save_chunk st else st

/-- All pages ever written out, in emission order. -/
def emittedPages (st : St) : List Page :=
  (st.chunks.map Prod.snd).flatten

/-- The chunk-writer invariant maintained by the crawl loop: all emitted
chunks are full, the counter tracks the number of emitted chunks, chunk
numbers are consecutive from one, the page total splits into full chunks
plus the buffer, and the buffer is strictly below the chunk size. -/
def ChunkInv (k : Nat) (st : St) : Prop :=
  st.chunks.map (fun c => c.2.length) = List.replicate st.chunks.length k ∧
  st.chunk_counter = st.chunks.length + 1 ∧
  st.chunks.map Prod.fst = List.range' 1 st.chunks.length ∧
  st.total_pages = k * st.chunks.length + st.current_chunk.length ∧
  st.current_chunk.length < k

/-- The URLs of all page records appended so far, emitted chunks first,
then the live buffer. -/
def bookUrls (st : St) : List String :=
  (emittedPages st ++ st.current_chunk).map Page.url

/-- The dedup invariant of the sequential crawler: no URL has two page
records, and every recorded URL has been marked visited. -/
def DedupInv (st : St) : Prop :=
  (bookUrls st).Nodup ∧ ∀ u ∈ bookUrls st, u ∈ st.visited

/-- The chunk-shape property claimed for a finished crawl with `n` total
pages and chunk size `k`: the emitted chunk sizes are `k, ..., k, n % k`
with the remainder chunk present exactly when `n % k` is positive, their
sum is `n`, and the chunk numbers count up from one without gaps. -/
def chunkReport (k : Nat) (st : St) : Prop :=
  st.chunks.map (fun c => c.2.length) =
      List.replicate (st.total_pages / k) k ++
        (if st.total_pages % k = 0 then [] else [st.total_pages % k]) ∧
    (st.chunks.map (fun c => c.2.length)).sum = st.total_pages ∧
    st.chunks.map Prod.fst = List.range' 1 st.chunks.length

end Crawler2

/-- A concrete five-page site used to instantiate the chunking theorems:
page `a` links to `b` and `c`, page `b` links to `d` and back to `a`,
page `d` links to `e`. -/
def fetchEx : String → Option (List String)
  | "https://e.com/a" => some ["https://e.com/b", "https://e.com/c"]
  | "https://e.com/b" => some ["https://e.com/d", "https://e.com/a"]
  | "https://e.com/c" => some []
  | "https://e.com/d" => some ["https://e.com/e"]
  | "https://e.com/e" => some []
  | _ => none

namespace Modern

/-- The fields of `crawler.PageData` the claims depend on. -/
structure PageData where
  url : String
  links : List String
  content_hash : String
  depth : Nat
  deriving Repr, DecidableEq

/-- The mutable state of `crawler.ModernWebCrawler` together with its
`DatabaseManager`: the visited set (kept as an insertion-ordered list
without duplicates, so its length is the set's size), the URL queue of
`(url, depth)` pairs, the `pages` table, and a log of every URL passed to
`session.get`, in call order. -/
structure St where
  visited : List String
  url_queue : List (String × Nat)
  db : List PageData
  fetchLog : List String
  deriving Repr, DecidableEq

/-- The state right after `crawl` seeds the queue with the base URL. -/
def St.init (base_url : String) : St :=
  ⟨[], [(base_url, 0)], [], []⟩

/-- Python `set.add` on the insertion-ordered list representation. -/
def setAdd (u : String) (l : List String) : List String :=
  if u ∈ l then l else l ++ [u]

/-- `DatabaseManager.save_page`: `INSERT OR REPLACE` keyed on the url. -/
def save_page (p : PageData) (db : List PageData) : List PageData :=
  db.filter (fun q => q.url ≠ p.url) ++ [p]

/-- `ModernWebCrawler.is_duplicate_content`: a row with this content hash
exists in the pages table. -/
def is_duplicate_content (db : List PageData) (h : String) : Bool :=
  db.any (fun p => p.content_hash = h)

/-- `ModernWebCrawler.get_page_content`.  The oracle `http` stands for the
aiohttp fetch plus BeautifulSoup parsing: it yields the extracted text
content and the anchor list of a page, or `none` on a non-200 status, a
non-HTML content type or a network error.  `md5` models
`compute_content_hash`.  The rate-limiter acquire that precedes the fetch
does not touch crawl state and is modelled separately as `RateLimiter`.
Every `session.get` call is appended to `fetchLog`.  A page whose hash is
already in the database yields `none` at the duplicate check; on any
other fetched page the `PageData` construction evaluates
`self.extract_meta_description(soup)` and `self.extract_links(soup, url)`
— neither method is defined on `ModernWebCrawler` (the class only has
`extract_content`, `extract_keywords` and `extract_images`) — so the
attribute lookup raises `AttributeError`, the blanket `except Exception`
swallows it, and the function returns `None` in this branch as well. -/
def get_page_content (http : String → Option (String × List String))
    (md5 : String → String) (st : St) (url : String) (_depth : Nat) :
    St × Option PageData :=
  let st := { st with fetchLog := st.fetchLog ++ [url] }
  match http url with
  | none => (st, none)
  | some (content, _links) =>
    let h := md5 content
    if is_duplicate_content st.db h then (st, none)
    else (st, none)

/-- `ModernWebCrawler.process_url`: unconditionally mark the URL visited,
fetch, and on success save the page and enqueue its links that are not yet
visited, at depth + 1.  Note there is no visited re-check before the
fetch. -/
def process_url (http : String → Option (String × List String))
    (md5 : String → String) (st : St) (t : String × Nat) : St :=
  let st1 := { st with visited := setAdd t.1 st.visited }
  let res := get_page_content http md5 st1 t.1 t.2
  match res.2 with
  | none => res.1
  | some page =>
    let st2 := { res.1 with db := save_page page res.1.db }
    { st2 with
      url_queue := st2.url_queue ++
        (page.links.filter (fun l => l ∉ st2.visited)).map (fun l => (l, t.2 + 1)) }

/-- The inner dispatch loop of `ModernWebCrawler.crawl`: pop queue entries
until the task list holds `concurrent` tasks or the queue is empty; a
popped entry becomes a task when its URL is unvisited and its depth is
within `max_depth`, and is discarded otherwise.  The visited set used for
the test is the one at batch start: tasks only run afterwards. -/
def dispatch (visited : List String) (concurrent max_depth : Nat) :
    List (String × Nat) → List (String × Nat) →
    List (String × Nat) × List (String × Nat)
  | [], tasks => (tasks, [])
  | (u, d) :: rest, tasks =>
    if concurrent ≤ tasks.length then (tasks, (u, d) :: rest)
    else if u ∉ visited ∧ d ≤ max_depth then
      dispatch visited concurrent max_depth rest (tasks ++ [(u, d)])
    else dispatch visited concurrent max_depth rest tasks

/-- The outer `while` loop of `ModernWebCrawler.crawl`, fuelled: loop while
the queue is non-empty and the visited set is smaller than `max_pages`;
each round dispatches a batch and runs its tasks.  The tasks of a batch
are executed in dispatch order, which realises the single-threaded asyncio
schedule in which each task runs to completion. -/
def crawlLoop (http : String → Option (String × List String))
    (md5 : String → String) (max_depth max_pages concurrent : Nat) :
    Nat → St → St
  | 0, st => st
  | fuel + 1, st =>
    if st.url_queue = [] ∨ max_pages ≤ st.visited.length then st
    else
      let p := dispatch st.visited concurrent max_depth st.url_queue []
      let st := { st with url_queue := p.2 }
      let st := p.1.foldl (process_url http md5) st
      crawlLoop http md5 max_depth max_pages concurrent fuel st

/-- `ModernWebCrawler.crawl` from `src/crawler.py`. -/
def crawl (http : String → Option (String × List String))
    (md5 : String → String) (max_depth max_pages concurrent fuel : Nat)
    (base_url : String) : St :=
  crawlLoop http md5 max_depth max_pages concurrent fuel (St.init base_url)

/-- `crawler.RateLimiter`: a minimum delay of `1 / requests_per_second`
seconds and the epoch timestamp of the previous request, initialised to
zero.  Clock readings are modelled as rationals. -/
structure RateLimiter where
  delay : ℚ
  last_request : ℚ
  deriving Repr, DecidableEq

/-- `RateLimiter.__init__`. -/
def RateLimiter.init (requests_per_second : ℚ) : RateLimiter :=
  ⟨1 / requests_per_second, 0⟩

/-- `RateLimiter.acquire` under the lock: `now` is the `time.time()`
reading at entry and `after` the reading at the final update; the first
component is the duration passed to `asyncio.sleep` (zero when no sleep
happens). -/
def RateLimiter.acquire (rl : RateLimiter) (now after : ℚ) : ℚ × RateLimiter :=
  let time_passed := now - rl.last_request
  (if time_passed < rl.delay then rl.delay - time_passed else 0,
   { rl with last_request := after })

end Modern

/-- A site in which URL `u` is linked from both `a` and `b`, which are in
turn linked from the seed: an adversarial input for duplicate-fetch
scenarios.  Since the crawler's page construction always fails, neither
`a` nor `b` is ever enqueued and only the seed is fetched. -/
def httpRace : String → Option (String × List String)
  | "s" => some ("cs", ["a", "b"])
  | "a" => some ("ca", ["u"])
  | "b" => some ("cb", ["u"])
  | "u" => some ("cu", [])
  | _ => none

namespace SrcCrawler

/-- A page record of the recursive crawler in `src/src/crawler.py`,
annotated with the depth at which it was crawled. -/
structure Page where
  url : String
  links : List String
  depth : Nat
  deriving Repr, DecidableEq

/-- The mutable attributes of `src/src/crawler.WebCrawler` touched by
`crawl_page` and `save_chunk`, plus a log of every URL passed to
`session.get`, in call order. -/
structure St where
  visited : List String
  current_chunk : List Page
  chunk_counter : Nat
  total_pages : Nat
  chunks : List (Nat × List Page)
  fetched : List String
  deriving Repr, DecidableEq

/-- The state of a freshly constructed crawler. -/
def St.init : St :=
  ⟨[], [], 1, 0, [], []⟩

/-- `WebCrawler.save_chunk` of `src/src/crawler.py` (identical in shape to
the one in `crawler2.py`). -/
def save_chunk (st : St) : St :=
  if st.current_chunk = [] then st
  else
    { st with
      chunks := st.chunks ++ [(st.chunk_counter, st.current_chunk)]
      current_chunk := []
      chunk_counter := st.chunk_counter + 1 }

mutual

/-- `WebCrawler.crawl_page` of `src/src/crawler.py`: return unchanged when
the depth exceeds `max_depth` or the URL was already visited; otherwise
mark visited, fetch (`fetch` models `get_page_content` followed by
`extract_links`, i.e. the HTTP, parsing and URL-validity collaborators:
it yields the filtered absolute link list or `none` on a fetch error),
append the page record, flush a full chunk, and recurse into the extracted
links at `depth + 1`. -/
def crawl_page (fetch : String → Option (List String)) (max_depth chunk_size : Nat)
    (st : St) (current_url : String) (depth : Nat) : St :=
  if _h : max_depth < depth ∨ current_url ∈ st.visited then st
  else
    let st1 : St := { st with
      visited := st.visited ++ [current_url]
      fetched := st.fetched ++ [current_url] }
    match fetch current_url with
    | none => st1
    | some links =>
      let st2 : St := { st1 with
        current_chunk := st1.current_chunk ++ [⟨current_url, links, depth⟩]
        total_pages := st1.total_pages + 1 }
      let st3 : St := if chunk_size ≤ st2.current_chunk.length then save_chunk st2 else st2
      crawl_children fetch max_depth chunk_size st3 links (depth + 1)
termination_by (max_depth + 1 - depth, 0)
decreasing_by
  simp_wf
  apply Prod.Lex.left
  omega

/-- The `for link in links: self.crawl_page(link, depth + 1)` loop at the
end of `crawl_page`. -/
def crawl_children (fetch : String → Option (List String))
    (max_depth chunk_size : Nat) (st : St) (links : List String) (depth : Nat) : St :=
  match links with
  | [] => st
  | l :: ls =>
    crawl_children fetch max_depth chunk_size
      (crawl_page fetch max_depth chunk_size st l depth) ls depth
termination_by (max_depth + 1 - depth, links.length)
decreasing_by
  · apply Prod.Lex.right
    simp only [List.length_cons]
    omega
  · apply Prod.Lex.right
    simp only [List.length_cons]
    omega

end

/-- `WebCrawler.crawl` of `src/src/crawler.py`: crawl from the base URL at
depth 0, then flush any remaining partial chunk. -/
def crawl (fetch : String → Option (List String)) (max_depth chunk_size : Nat)
    (base_url : String) : St :=
  let st := crawl_page fetch max_depth chunk_size St.init base_url 0
  if st.current_chunk ≠ [] then save_chunk st else st

/-- All page records produced so far: emitted chunks first, then the live
buffer. -/
def allPages (st : St) : List Page :=
  (st.chunks.map Prod.snd).flatten ++ st.current_chunk

/-- Every page record carries a depth within the budget. -/
def DepthInv (max_depth : Nat) (st : St) : Prop :=
  ∀ p ∈ allPages st, p.depth ≤ max_depth

end SrcCrawler

/-- A two-page chain used to instantiate the depth theorem: the seed links
to `t`, which is beyond a depth budget of zero. -/
def fetch3 : String → Option (List String)
  | "s" => some ["t"]
  | "t" => some []
  | _ => none

/-- Model of Python `str.endswith`. -/
def pyEndsWith (s suf : String) : Bool :=
  suf.data.isSuffixOf s.data

namespace Pro1

/-- `is_valid_url` from `crawler/utils.py` of the `pro1` variant.
`research` models the `re.search` library collaborator: `research pattern
s` decides whether the regular expression `pattern` matches somewhere in
`s`.  The rules in source order: reject on missing scheme or netloc;
reject unless the netloc equals `base_domain` or ends with
`"." ++ base_domain`; reject unless the path starts with `base_path`;
reject when any `exclude_exact` literal occurs in the lowercased URL (the
literal itself is not lowercased); with a non-empty `include_patterns`,
reject unless some pattern matches; reject when any `exclude_patterns`
pattern matches. -/
def is_valid_url (research : String → String → Bool)
    (url base_domain base_path : String)
    (include_patterns exclude_patterns exclude_exact : List String) : Bool :=
  let parsed := urlparse url
  if parsed.scheme == "" || parsed.netloc == "" then false
  else if !(parsed.netloc == base_domain ||
      pyEndsWith parsed.netloc ("." ++ base_domain)) then false
  else if !(pyStartsWith parsed.path base_path) then false
  else if !exclude_exact.isEmpty &&
      exclude_exact.any (fun pat => pyIn pat (pyLower url)) then false
  else if !include_patterns.isEmpty &&
      !(include_patterns.any (fun pat => research pat url)) then false
  else if !exclude_patterns.isEmpty &&
      exclude_patterns.any (fun pat => research pat url) then false
  else true

/-- Modelled from the spec, section 4.1: the URL policy filter contract
`eligible`, whose rule (d) rejects when an `exclude_exact` literal occurs
in the URL case-insensitively — here rendered by lowercasing both the URL
and the literal.  All other rules coincide with `is_valid_url`. -/
def eligible (research : String → String → Bool)
    (url base_domain base_path : String)
    (include_patterns exclude_patterns exclude_exact : List String) : Bool :=
  let parsed := urlparse url
  if parsed.scheme == "" || parsed.netloc == "" then false
  else if !(parsed.netloc == base_domain ||
      pyEndsWith parsed.netloc ("." ++ base_domain)) then false
  else if !(pyStartsWith parsed.path base_path) then false
  else if !exclude_exact.isEmpty &&
      exclude_exact.any (fun pat => pyIn (pyLower pat) (pyLower url)) then false
  else if !include_patterns.isEmpty &&
      !(include_patterns.any (fun pat => research pat url)) then false
  else if !exclude_patterns.isEmpty &&
      exclude_patterns.any (fun pat => research pat url) then false
  else true

/-- The state of `RobotsParser.parse_rules` from `crawler/robots.py`: the
accumulated rule lists and crawl delay, plus the function's local
variables modelled as options (`none` = unbound).  The local `user_agent`
is assigned by `User-agent:` lines; the local `agent`, read on every
iteration to compute `relevant_block`, is never assigned anywhere in the
function. -/
structure RobotsSt where
  disallowed_paths : List String
  allow_paths : List String
  crawl_delay : Option Int
  user_agent_var : Option String
  agent_var : Option String
  deriving Repr, DecidableEq

/-- The parser state at entry: empty rules, no delay, both locals
unbound. -/
def RobotsSt.init : RobotsSt :=
  ⟨[], [], none, none, none⟩

/-- One iteration of the `for line in content.splitlines()` loop of
`parse_rules`.  Reading the unbound local `agent` raises `NameError`,
modelled as `Except.error`; the remaining branches transcribe the
`Disallow:` / `Allow:` / `Crawl-delay:` handling that would follow. -/
def parse_rules_line (st : RobotsSt) (rawLine : String) : Except String RobotsSt :=
  let line := pyStrip rawLine
  let st := if pyStartsWith line "User-agent:"
    then { st with user_agent_var := some (pyStrip (pyAfterColon line)) }
    else st
  match st.agent_var with
  | none => Except.error "NameError: name agent is not defined"
  | some agent =>
    let relevant_block : Bool :=
      agent == "*" || pyLower agent == "python-requests" || agent == "gemini_bot"
    if relevant_block = false then
      Except.ok { st with disallowed_paths := [], allow_paths := [] }
    else if pyStartsWith line "Disallow:" then
      let path := pyStrip (pyAfterColon line)
      Except.ok (if path ≠ ""
        then { st with disallowed_paths := st.disallowed_paths ++ [path] }
        else st)
    else if pyStartsWith line "Allow:" then
      let path := pyStrip (pyAfterColon line)
      Except.ok (if path ≠ ""
        then { st with allow_paths := st.allow_paths ++ [path] }
        else st)
    else if pyStartsWith line "Crawl-delay:" then
      Except.ok (match (pyStrip (pyAfterColon line)).toInt? with
        | some n => { st with crawl_delay := some n }
        | none => st)
    else Except.ok st

/-- `RobotsParser.parse_rules`: fold the line handler over the content's
lines. -/
def parse_rules (content : String) : Except String RobotsSt :=
  (pySplitlines content).foldlM parse_rules_line RobotsSt.init

/-- `WebCrawler.fetch_page_content` from `crawler/core.py`.  The crawler
reads `retry_attempts` and `retry_delay` from its configuration, but the
function body performs a single `session.get` inside one `try`.  The
oracle `http` maps an attempt index to that attempt's outcome
(`Except.error` models a raised `requests.exceptions.RequestException`,
including the non-2xx statuses that `raise_for_status` converts into
exceptions); the second component of the result counts the attempts
made. -/
def fetch_page_content (_retry_attempts : Nat) (_retry_delay : ℚ)
    (http : Nat → Except String (String × Nat)) :
    Option (String × Nat) × Nat :=
  match http 0 with
  | Except.ok res => (some res, 1)
  | Except.error _ => (none, 1)

end Pro1

/-- A request that fails with a timeout on the first attempt and would
succeed on any later attempt. -/
def flakyHttp : Nat → Except String (String × Nat)
  | 0 => Except.error "Timeout"
  | _ => Except.ok ("page", 200)

namespace Crawler2

theorem chunkInv_init {k : Nat} (hk : 0 < k) : ChunkInv k St.init := by
  refine ⟨rfl, rfl, rfl, rfl, ?_⟩
  simpa [St.init] using hk

/-- Appending one page and conditionally flushing preserves the invariant. -/
theorem chunkInv_append {k : Nat} {st : St} (page : Page) (h : ChunkInv k st) :
    ChunkInv k
      (if k ≤ (st.current_chunk ++ [page]).length then
        save_chunk { st with
          current_chunk := st.current_chunk ++ [page]
          total_pages := st.total_pages + 1 }
      else { st with
        current_chunk := st.current_chunk ++ [page]
        total_pages := st.total_pages + 1 }) := by
  obtain ⟨hsz, hcnt, hnum, htot, hbuf⟩ := h
  by_cases hfull : k ≤ (st.current_chunk ++ [page]).length
  · have hlen : st.current_chunk.length + 1 = k := by
      simp only [List.length_append, List.length_singleton] at hfull
      omega
    rw [if_pos hfull]
    have hne : ¬ (st.current_chunk ++ [page] = []) := by simp
    simp only [save_chunk, hne, if_false]
    refine ⟨?_, ?_, ?_, ?_, ?_⟩
    · simp [hsz, List.replicate_succ', hlen]
    · simp [hcnt]
    · simp only [List.map_append, hnum, List.map_cons, List.map_nil, List.length_append,
        List.length_singleton, List.range'_concat, hcnt]
      simp [Nat.add_comm]
    · simp only [List.length_append, List.length_singleton, List.length_nil, Nat.mul_succ]
      omega
    · simp only [List.length_nil]
      omega
  · rw [if_neg hfull]
    have hlt : (st.current_chunk ++ [page]).length < k := by omega
    refine ⟨hsz, hcnt, hnum, ?_, hlt⟩
    simp only [List.length_append, List.length_singleton]
    omega

theorem chunkInv_crawlLoop (fetch : String → Option (List String))
    (domain base_path : String) (k : Nat) (max_pages : Option Nat) :
    ∀ fuel urls st, ChunkInv k st →
      ChunkInv k (crawlLoop fetch domain base_path k max_pages fuel urls st) := by
  intro fuel
  induction fuel with
  | zero => intro urls st h; simpa [crawlLoop] using h
  | succ n ih =>
    intro urls st h
    match urls with
    | [] => simpa [crawlLoop] using h
    | u :: rest =>
      rw [crawlLoop]
      by_cases hb : budgetOpen max_pages st.total_pages
      · simp only [hb, if_true]
        by_cases hv : u ∈ st.visited
        · simp only [hv, if_pos, if_true]
          exact ih rest _ h
        · simp only [hv, if_neg, if_false, not_false_iff]
          cases hf : fetch u with
          | none => exact ih rest _ h
          | some raw =>
            dsimp only
            exact ih _ _
              (@chunkInv_append k { st with visited := st.visited ++ [u] } _ h)
      · simp only [hb, if_false]
        exact h

theorem sum_replicate_nat (m k : Nat) : (List.replicate m k).sum = m * k := by
  induction m with
  | zero => simp
  | succ n ih => simp [List.replicate_succ, ih, Nat.succ_mul]; omega

/-- C4 (confirmed).  For every crawl of the sequential chunked crawler
`crawler2.WebCrawler` with chunk size `k > 0` that ends with `n` total
pages, the emitted chunk sizes are `k, ..., k, n % k` (remainder chunk
present exactly when `n % k > 0`), chunk sizes add up to `n`, chunk
numbers start at 1 and increase by exactly one without gaps, and the final
flush is a no-op on an empty buffer. -/
theorem crawler2_chunk_shape (fetch : String → Option (List String))
    (domain base_path : String) (k : Nat) (max_pages : Option Nat)
    (fuel : Nat) (base_url : String) (hk : 0 < k) :
    chunkReport k (crawl fetch domain base_path k max_pages fuel base_url) ∧
      ∀ s : St, s.current_chunk = [] → save_chunk s = s := by
  refine ⟨?_, fun s hs => by simp [save_chunk, hs]⟩
  have h := chunkInv_crawlLoop fetch domain base_path k max_pages fuel [base_url]
    St.init (chunkInv_init hk)
  unfold crawl
  set stL := crawlLoop fetch domain base_path k max_pages fuel [base_url] St.init with hstL
  obtain ⟨hsz, hcnt, hnum, htot, hbuf⟩ := h
  by_cases hcc : stL.current_chunk = []
  · rw [if_neg (by simp [hcc])]
    have hm : stL.total_pages = k * stL.chunks.length := by
      rw [htot, hcc]; simp
    have hdiv : stL.total_pages / k = stL.chunks.length := by
      rw [hm, Nat.mul_div_cancel_left _ hk]
    have hmod : stL.total_pages % k = 0 := by
      rw [hm]; exact Nat.mul_mod_right k _
    refine ⟨?_, ?_, hnum⟩
    · rw [hsz, hdiv, hmod]; simp
    · rw [hsz, sum_replicate_nat, hm, Nat.mul_comm]
  · rw [if_pos hcc]
    have hr : 0 < stL.current_chunk.length := List.length_pos.mpr hcc
    have hdiv : stL.total_pages / k = stL.chunks.length := by
      rw [htot, Nat.mul_add_div hk, Nat.div_eq_of_lt hbuf]
      omega
    have hmod : stL.total_pages % k = stL.current_chunk.length := by
      rw [htot, Nat.mul_add_mod, Nat.mod_eq_of_lt hbuf]
    simp only [save_chunk, hcc, if_false]
    refine ⟨?_, ?_, ?_⟩
    · simp only [List.map_append, hsz, List.map_cons, List.map_nil]
      rw [hdiv, hmod, if_neg (by omega)]
    · simp only [List.map_append, hsz, List.map_cons, List.map_nil, List.sum_append]
      rw [sum_replicate_nat, htot]
      simp [Nat.mul_comm]
    · simp only [List.map_append, hnum, List.map_cons, List.map_nil, List.length_append,
        List.length_singleton, List.range'_concat, hcnt]
      simp [Nat.add_comm]

/-- Instantiation of the chunk-shape theorem on the concrete five-page
site with chunk size 2. -/
theorem crawler2_chunk_shape_witness :
    chunkReport 2 (crawl fetchEx "e.com" "" 2 none 20 "https://e.com/a") :=
  (crawler2_chunk_shape fetchEx "e.com" "" 2 none 20 "https://e.com/a" (by decide)).1

theorem bookUrls_save (st : St) : bookUrls (save_chunk st) = bookUrls st := by
  by_cases hcc : st.current_chunk = []
  · simp [save_chunk, hcc]
  · simp [save_chunk, hcc, bookUrls, emittedPages]

theorem save_chunk_visited (st : St) : (save_chunk st).visited = st.visited := by
  by_cases hcc : st.current_chunk = [] <;> simp [save_chunk, hcc]

theorem dedupInv_append {st : St} {u : String} {links : List String}
    (hv : u ∉ st.visited) (h : DedupInv st) :
    DedupInv
      (let st1 : St := { st with visited := st.visited ++ [u] }
       let st2 : St := { st1 with
         current_chunk := st1.current_chunk ++ [⟨u, links⟩]
         total_pages := st1.total_pages + 1 }
       st2) := by
  obtain ⟨hnd, hsub⟩ := h
  have hbu : bookUrls { st with
      visited := st.visited ++ [u]
      current_chunk := st.current_chunk ++ [(⟨u, links⟩ : Page)]
      total_pages := st.total_pages + 1 } = bookUrls st ++ [u] := by
    simp [bookUrls, emittedPages]
  constructor
  · rw [hbu]
    refine List.nodup_append.mpr ⟨hnd, List.nodup_singleton u, ?_⟩
    intro x hx hxu
    rcases List.mem_singleton.mp hxu with rfl
    exact hv (hsub x hx)
  · intro x hx
    rw [hbu] at hx
    rcases List.mem_append.mp hx with hx | hx
    · exact List.mem_append.mpr (Or.inl (hsub x hx))
    · simp [List.mem_singleton.mp hx]

theorem dedupInv_crawlLoop (fetch : String → Option (List String))
    (domain base_path : String) (k : Nat) (max_pages : Option Nat) :
    ∀ fuel urls st, DedupInv st →
      DedupInv (crawlLoop fetch domain base_path k max_pages fuel urls st) := by
  intro fuel
  induction fuel with
  | zero => intro urls st h; simpa [crawlLoop] using h
  | succ n ih =>
    intro urls st h
    match urls with
    | [] => simpa [crawlLoop] using h
    | u :: rest =>
      rw [crawlLoop]
      by_cases hb : budgetOpen max_pages st.total_pages
      · simp only [hb, if_true]
        by_cases hv : u ∈ st.visited
        · simp only [hv, if_pos, if_true]
          exact ih rest _ h
        · simp only [hv, if_neg, if_false, not_false_iff]
          cases hf : fetch u with
          | none =>
            refine ih rest _ ⟨h.1, fun x hx => ?_⟩
            exact List.mem_append.mpr (Or.inl (h.2 x hx))
          | some raw =>
            dsimp only
            apply ih
            by_cases hfull :
                k ≤ (st.current_chunk ++
                  [(⟨u, raw.filter (is_valid_url domain base_path)⟩ : Page)]).length
            · rw [if_pos hfull]
              have h2 := @dedupInv_append st u (raw.filter (is_valid_url domain base_path)) hv h
              refine ⟨?_, ?_⟩
              · rw [bookUrls_save]; exact h2.1
              · intro x hx
                rw [bookUrls_save] at hx
                rw [save_chunk_visited]
                exact h2.2 x hx
            · rw [if_neg hfull]
              exact @dedupInv_append st u (raw.filter (is_valid_url domain base_path)) hv h
      · simp only [hb, if_false]
        exact h

/-- C9 (confirmed).  In the sequential crawler `crawler2.WebCrawler.crawl`,
each URL contributes at most one page record to the emitted chunks over
the whole run: the list of URLs of all emitted pages has no duplicates,
for every fetch oracle, configuration and fuel. -/
theorem crawler2_no_duplicate_records (fetch : String → Option (List String))
    (domain base_path : String) (k : Nat) (max_pages : Option Nat)
    (fuel : Nat) (base_url : String) :
    ((emittedPages (crawl fetch domain base_path k max_pages fuel base_url)).map
      Page.url).Nodup := by
  have h := dedupInv_crawlLoop fetch domain base_path k max_pages fuel [base_url]
    St.init ⟨by simp [bookUrls, emittedPages, St.init], by simp [bookUrls, emittedPages, St.init]⟩
  unfold crawl
  set stL := crawlLoop fetch domain base_path k max_pages fuel [base_url] St.init with hstL
  have key : ∀ st : St, DedupInv st → ((emittedPages st).map Page.url).Nodup := by
    intro st hst
    have : (bookUrls st).Nodup := hst.1
    rw [bookUrls, List.map_append] at this
    exact (List.nodup_append.mp this).1
  by_cases hcc : stL.current_chunk = []
  · rw [if_neg (by simp [hcc])]
    exact key stL h
  · rw [if_pos hcc]
    apply key
    refine ⟨?_, ?_⟩
    · rw [bookUrls_save]; exact h.1
    · intro x hx
      rw [bookUrls_save] at hx
      rw [save_chunk_visited]
      exact h.2 x hx

end Crawler2

namespace Modern

theorem get_page_content_eq (http : String → Option (String × List String))
    (md5 : String → String) (st : St) (url : String) (depth : Nat) :
    get_page_content http md5 st url depth =
      ({ st with fetchLog := st.fetchLog ++ [url] }, none) := by
  simp only [get_page_content]
  cases http url with
  | none => rfl
  | some cl =>
    obtain ⟨c, l⟩ := cl
    dsimp only
    split <;> rfl

theorem process_url_eq (http : String → Option (String × List String))
    (md5 : String → String) (st : St) (t : String × Nat) :
    process_url http md5 st t =
      { st with
        visited := setAdd t.1 st.visited
        fetchLog := st.fetchLog ++ [t.1] } := by
  simp [process_url, get_page_content_eq]

theorem crawlLoop_nil (http : String → Option (String × List String))
    (md5 : String → String) (max_depth max_pages concurrent : Nat) :
    ∀ (fuel : Nat) (st : St), st.url_queue = [] →
      crawlLoop http md5 max_depth max_pages concurrent fuel st = st
  | 0, _, _ => rfl
  | fuel + 1, st, h => by rw [crawlLoop, if_pos (Or.inl h)]

theorem dispatch_zero (visited : List String) (max_depth : Nat) :
    ∀ q : List (String × Nat), dispatch visited 0 max_depth q [] = ([], q)
  | [] => rfl
  | (u, d) :: rest => by
    rw [dispatch]
    simp

theorem crawlLoop_zero_concurrent (http : String → Option (String × List String))
    (md5 : String → String) (max_depth max_pages : Nat) :
    ∀ (fuel : Nat) (st : St),
      crawlLoop http md5 max_depth max_pages 0 fuel st = st := by
  intro fuel
  induction fuel with
  | zero => intro st; rfl
  | succ n ih =>
    intro st
    rw [crawlLoop]
    by_cases hg : st.url_queue = [] ∨ max_pages ≤ st.visited.length
    · rw [if_pos hg]
    · rw [if_neg hg]
      dsimp only
      rw [dispatch_zero]
      simp only [List.foldl_nil]
      exact ih st

/-- Every crawl of `ModernWebCrawler` ends in one of exactly two states:
the seeded initial state (zero pages, zero concurrency or fuel, or the
budget already exhausted), or the state in which the seed alone was
fetched once.  The page construction of `get_page_content` always fails
(the `PageData` call names the undefined methods
`extract_meta_description` and `extract_links`, and the `AttributeError`
is swallowed), so no page is ever saved and no link is ever enqueued. -/
theorem crawl_cases (http : String → Option (String × List String))
    (md5 : String → String) (max_depth max_pages concurrent fuel : Nat)
    (base_url : String) :
    crawl http md5 max_depth max_pages concurrent fuel base_url = St.init base_url ∨
      crawl http md5 max_depth max_pages concurrent fuel base_url =
        ⟨[base_url], [], [], [base_url]⟩ := by
  unfold crawl St.init
  cases fuel with
  | zero => exact Or.inl rfl
  | succ n =>
    rw [crawlLoop]
    by_cases hP : max_pages = 0
    · rw [if_pos (Or.inr (by simp [hP]))]
      exact Or.inl rfl
    · rw [if_neg (by rintro (h | h) <;> simp at h; omega)]
      dsimp only
      by_cases hC : concurrent = 0
      · subst hC
        rw [dispatch_zero]
        simp only [List.foldl_nil]
        exact Or.inl (crawlLoop_zero_concurrent http md5 max_depth max_pages n _)
      · have hd : dispatch ([] : List String) concurrent max_depth
            [(base_url, 0)] [] = ([(base_url, 0)], []) := by
          rw [dispatch]
          rw [if_neg (by simpa using hC)]
          rw [if_pos ⟨by simp, by omega⟩]
          rfl
        rw [hd]
        simp only [List.foldl_cons, List.foldl_nil, process_url_eq]
        right
        rw [crawlLoop_nil http md5 max_depth max_pages concurrent n _ rfl]
        simp [setAdd]

/-- C1 (confirmed).  In `ModernWebCrawler.crawl`, every URL is claimed
(inserted into `visited_urls`) at most once and passed to `session.get`
at most once, for every oracle, configuration and fuel.  The guarantee
holds for the program as written not because the dispatch-time test and
the insert in `process_url` form an atomic pair — they do not — but
because `get_page_content` never produces a page (its `PageData`
construction calls the undefined methods `extract_meta_description` and
`extract_links` and the resulting `AttributeError` is swallowed by the
blanket `except`), so no link is ever enqueued, the frontier never grows
beyond the seed, and the seed is dispatched at most once. -/
theorem modern_fetch_at_most_once (http : String → Option (String × List String))
    (md5 : String → String) (max_depth max_pages concurrent fuel : Nat)
    (base_url : String) :
    (crawl http md5 max_depth max_pages concurrent fuel base_url).visited.Nodup ∧
      ∀ u : String,
        (crawl http md5 max_depth max_pages concurrent fuel base_url).fetchLog.count u
          ≤ 1 := by
  rcases crawl_cases http md5 max_depth max_pages concurrent fuel base_url with h | h <;>
    rw [h] <;> refine ⟨by simp [St.init], fun u => ?_⟩
  · simp [St.init]
  · by_cases hu : u = base_url <;> simp [List.count_cons, hu]

/-- C2 (confirmed).  The total number of pages `ModernWebCrawler` saves
over a whole run never exceeds `max_pages`, for every oracle,
configuration and fuel — vacuously: the pages table stays empty, because
`get_page_content` always returns `None` (the `PageData` construction
fails on the undefined `extract_meta_description` / `extract_links`
methods), so `save_page` is unreachable and zero pages are emitted. -/
theorem modern_within_max_pages (http : String → Option (String × List String))
    (md5 : String → String) (max_depth max_pages concurrent fuel : Nat)
    (base_url : String) :
    (crawl http md5 max_depth max_pages concurrent fuel base_url).db = [] ∧
      (crawl http md5 max_depth max_pages concurrent fuel base_url).db.length
        ≤ max_pages := by
  rcases crawl_cases http md5 max_depth max_pages concurrent fuel base_url with h | h <;>
    rw [h] <;> exact ⟨rfl, by simp [St.init]⟩

/-- C7 (confirmed, vacuously).  In `ModernWebCrawler`, no fetched page
ever has a content hash that was already seen: `get_page_content` never
yields a page (the `PageData` construction fails on the undefined
`extract_meta_description` / `extract_links` methods and the
`AttributeError` is swallowed), `process_url` therefore never writes the
pages table, and the table stays empty through every run — so the
duplicate check at the start of the construction never fires and the
claim's statement about duplicate pages holds over an empty set of
instances. -/
theorem modern_duplicate_vacuous (http : String → Option (String × List String))
    (md5 : String → String) :
    (∀ (st : St) (url : String) (depth : Nat),
        (get_page_content http md5 st url depth).2 = none) ∧
      (∀ (st : St) (t : String × Nat), (process_url http md5 st t).db = st.db) ∧
      ∀ (max_depth max_pages concurrent fuel : Nat) (base_url h : String),
        is_duplicate_content
          (crawl http md5 max_depth max_pages concurrent fuel base_url).db h
          = false := by
  refine ⟨?_, ?_, ?_⟩
  · intro st url depth
    rw [get_page_content_eq]
  · intro st t
    rw [process_url_eq]
  · intro max_depth max_pages concurrent fuel base_url h
    rcases crawl_cases http md5 max_depth max_pages concurrent fuel base_url with hc | hc <;>
      rw [hc] <;> rfl


/-- C10 counterexample.  For the positive rate `requests_per_second =
1 / 10^10`, the minimum interval `1 / requests_per_second = 10^10`
exceeds the clock reading `1.7 * 10^9`, so the very first `acquire` of a
freshly constructed `RateLimiter` sleeps: the claim that the first
acquisition never sleeps for every positive rate is false. -/
theorem rate_limiter_first_acquire_sleeps :
    0 < ((1 : ℚ) / 10000000000) ∧
      0 < ((RateLimiter.init (1 / 10000000000)).acquire 1700000000 1700000000).1 := by
  constructor
  · norm_num
  · simp only [RateLimiter.init, RateLimiter.acquire]
    norm_num

/-- C10 amended.  The first `acquire` of a freshly constructed rate
limiter does not sleep provided the minimum interval `1 /
requests_per_second` does not exceed the current clock reading (true for
any realistic rate, since `last_request` starts at zero and the clock is
seconds since the epoch); only then is the elapsed time at least the
interval. -/
theorem rate_limiter_first_acquire_no_sleep (requests_per_second now after : ℚ)
    (hnow : 1 / requests_per_second ≤ now) :
    ((RateLimiter.init requests_per_second).acquire now after).1 = 0 := by
  simp only [RateLimiter.init, RateLimiter.acquire]
  rw [if_neg]
  simp only [sub_zero]
  exact not_lt.mpr (by simpa using hnow)

/-- Instantiation of the no-sleep theorem at rate 2 and clock reading
`1.7 * 10^9`. -/
theorem rate_limiter_first_acquire_no_sleep_witness :
    ((RateLimiter.init 2).acquire 1700000000 1700000000).1 = 0 :=
  rate_limiter_first_acquire_no_sleep 2 1700000000 1700000000 (by norm_num)

end Modern

namespace SrcCrawler

theorem allPages_save (st : St) : allPages (save_chunk st) = allPages st := by
  by_cases h : st.current_chunk = [] <;> simp [save_chunk, h, allPages]

theorem depthInv_append {md k : Nat} {st : St} {u : String} {links : List String}
    {d : Nat} (hd : d ≤ md) (h : DepthInv md st) :
    DepthInv md
      (if k ≤ (st.current_chunk ++ [(⟨u, links, d⟩ : Page)]).length then
        save_chunk { st with
          current_chunk := st.current_chunk ++ [⟨u, links, d⟩]
          total_pages := st.total_pages + 1 }
      else { st with
        current_chunk := st.current_chunk ++ [⟨u, links, d⟩]
        total_pages := st.total_pages + 1 }) := by
  have key : DepthInv md { st with
      current_chunk := st.current_chunk ++ [(⟨u, links, d⟩ : Page)]
      total_pages := st.total_pages + 1 } := by
    intro p hp
    simp only [allPages, List.mem_append] at hp
    rcases hp with hp | hp | hp
    · exact h p (List.mem_append.mpr (Or.inl hp))
    · exact h p (List.mem_append.mpr (Or.inr hp))
    · rcases List.mem_singleton.mp hp with rfl
      exact hd
  split
  · intro p hp
    rw [allPages_save] at hp
    exact key p hp
  · exact key

theorem crawl_page_depthInv (fetch : String → Option (List String)) (md k : Nat) :
    ∀ (n d : Nat), md + 1 - d ≤ n → ∀ (st : St) (u : String),
      DepthInv md st → DepthInv md (crawl_page fetch md k st u d) := by
  intro n
  induction n with
  | zero =>
    intro d hd st u hst
    rw [crawl_page]
    rw [dif_pos (Or.inl (by omega))]
    exact hst
  | succ n ih =>
    intro d hd st u hst
    rw [crawl_page]
    by_cases hg : md < d ∨ u ∈ st.visited
    · rw [dif_pos hg]
      exact hst
    · rw [dif_neg hg]
      push_neg at hg
      have hchild : ∀ (ls : List String) (stc : St), DepthInv md stc →
          DepthInv md (crawl_children fetch md k stc ls (d + 1)) := by
        intro ls
        induction ls with
        | nil =>
          intro stc hc
          rw [crawl_children]
          exact hc
        | cons l ls ihl =>
          intro stc hc
          rw [crawl_children]
          exact ihl _ (ih (d + 1) (by omega) stc l hc)
      cases hf : fetch u with
      | none => exact hst
      | some links =>
        dsimp only
        exact hchild links _
          (@depthInv_append md k
            { st with
              visited := st.visited ++ [u]
              fetched := st.fetched ++ [u] }
            u links d (by omega) hst)

/-- C3 (confirmed).  In the recursive crawler of `src/src/crawler.py`, a
frontier entry whose depth exceeds `max_depth` is dropped silently: the
state — including the fetch log — is completely unchanged, so no fetch
happens; consequently every page record produced by a crawl started at
depth 0 has depth at most `max_depth`. -/
theorem srccrawler_depth_guard (fetch : String → Option (List String))
    (max_depth chunk_size : Nat) :
    (∀ (st : St) (u : String) (d : Nat), max_depth < d →
        crawl_page fetch max_depth chunk_size st u d = st) ∧
      ∀ (base_url : String),
        ∀ p ∈ allPages (crawl fetch max_depth chunk_size base_url),
          p.depth ≤ max_depth := by
  constructor
  · intro st u d hd
    rw [crawl_page]
    exact dif_pos (Or.inl hd)
  · intro base_url p hp
    have h0 := crawl_page_depthInv fetch max_depth chunk_size (max_depth + 1) 0
      (by omega) St.init base_url
      (by intro q hq; simp [allPages, St.init] at hq)
    simp only [crawl] at hp
    by_cases hcc :
        (crawl_page fetch max_depth chunk_size St.init base_url 0).current_chunk = []
    · rw [if_neg (by simp [hcc])] at hp
      exact h0 p hp
    · rw [if_pos hcc] at hp
      rw [allPages_save] at hp
      exact h0 p hp

/-- Instantiation of the depth theorem: with `max_depth = 0`, an entry at
depth 1 is dropped with the state unchanged, and the single emitted page
of the two-page chain has depth 0. -/
theorem srccrawler_depth_guard_witness :
    crawl_page fetch3 0 2 St.init "x" 1 = St.init ∧
      (⟨"s", ["t"], 0⟩ : Page).depth ≤ 0 :=
  ⟨(srccrawler_depth_guard fetch3 0 2).1 St.init "x" 1 (by decide),
   (srccrawler_depth_guard fetch3 0 2).2 "s" ⟨"s", ["t"], 0⟩ (by
     simp [crawl, crawl_page, crawl_children, save_chunk, St.init, allPages, fetch3])⟩

end SrcCrawler

namespace Pro1

theorem any_lower_eq {url : String} :
    ∀ (l : List String), (∀ pat ∈ l, pyLower pat = pat) →
      (l.any fun pat => pyIn pat (pyLower url)) =
        (l.any fun pat => pyIn (pyLower pat) (pyLower url))
  | [], _ => rfl
  | p :: ps, h => by
    simp only [List.any_cons]
    rw [h p (List.mem_cons_self p ps),
      any_lower_eq ps (fun q hq => h q (List.mem_cons_of_mem p hq))]

/-- C5 counterexample.  With `exclude_exact = ["/Login"]`, the URL
`http://a.com/Login` contains the literal case-insensitively, so the
claimed rule (d) rejects it — but `is_valid_url` accepts it, because the
code lowercases only the URL and not the literal, so a literal containing
an uppercase letter never matches.  The spec-modelled `eligible`
rejects. -/
theorem pro1_filter_not_case_insensitive :
    is_valid_url (fun _ _ => false) "http://a.com/Login" "a.com" "" [] [] ["/Login"] =
        true ∧
      eligible (fun _ _ => false) "http://a.com/Login" "a.com" "" [] [] ["/Login"] =
        false := by
  constructor <;> decide

/-- C5 amended.  `is_valid_url` is a pure function of its arguments and
applies exactly the claimed rules in the claimed order, except that rule
(d) matches each `exclude_exact` literal verbatim against the lowercased
URL.  Hence it coincides with the spec's `eligible` contract exactly when
every `exclude_exact` literal is already lowercase (as all literals
shipped in the repository's configurations are). -/
theorem pro1_filter_matches_spec (research : String → String → Bool)
    (url base_domain base_path : String)
    (include_patterns exclude_patterns exclude_exact : List String)
    (hlower : ∀ pat ∈ exclude_exact, pyLower pat = pat) :
    is_valid_url research url base_domain base_path
        include_patterns exclude_patterns exclude_exact =
      eligible research url base_domain base_path
        include_patterns exclude_patterns exclude_exact := by
  unfold is_valid_url eligible
  rw [any_lower_eq exclude_exact hlower]

/-- Instantiation of the filter equivalence on a lowercase exclusion
list. -/
theorem pro1_filter_matches_spec_witness :
    is_valid_url (fun _ _ => false) "http://a.com/x" "a.com" "" [] [] ["/login"] =
      eligible (fun _ _ => false) "http://a.com/x" "a.com" "" [] [] ["/login"] :=
  pro1_filter_matches_spec (fun _ _ => false) "http://a.com/x" "a.com" "" [] []
    ["/login"] (by decide)

/-- C6 (code bug).  `RobotsParser.parse_rules` computes `relevant_block`
from a local name `agent` that is never assigned (the `User-agent:`
branch assigns `user_agent` instead), and even that dead comparison tests
the hardcoded strings `*`, `python-requests` and `gemini_bot` rather
than the crawler's configured user agent.  Consequently parsing any
robots.txt body with at least one line raises `NameError` on its first
iteration, and no `Disallow`, `Allow` or `Crawl-delay` line ever
contributes to the stored policy. -/
theorem robots_parse_rules_name_error (content : String)
    (h : pySplitlines content ≠ []) :
    parse_rules content = Except.error "NameError: name agent is not defined" := by
  obtain ⟨x, xs, hx⟩ := List.exists_cons_of_ne_nil h
  unfold parse_rules
  rw [hx, List.foldlM_cons]
  have hline : parse_rules_line RobotsSt.init x =
      Except.error "NameError: name agent is not defined" := by
    unfold parse_rules_line
    by_cases hua : pyStartsWith (pyStrip x) "User-agent:" = true <;>
      simp [hua, RobotsSt.init]
  rw [hline]
  rfl

/-- Instantiation of the robots parser theorem on a well-formed two-line
robots.txt body. -/
theorem robots_parse_rules_name_error_witness :
    parse_rules "User-agent: *\nDisallow: /private" =
      Except.error "NameError: name agent is not defined" :=
  robots_parse_rules_name_error "User-agent: *\nDisallow: /private" (by decide)

/-- C8 (code bug).  `fetch_page_content` makes exactly one HTTP attempt
whatever the configured `retry_attempts` and `retry_delay` are, and on the
`flakyHttp` request — which fails once and would succeed on the second
attempt — it abandons the URL after that single failed attempt, although
`retry_attempts = 3` asks for retries. -/
theorem pro1_fetch_no_retry :
    (∀ (retry_attempts : Nat) (retry_delay : ℚ)
        (http : Nat → Except String (String × Nat)),
        (fetch_page_content retry_attempts retry_delay http).2 = 1) ∧
      fetch_page_content 3 2 flakyHttp = (none, 1) ∧
      flakyHttp 1 = Except.ok ("page", 200) := by
  refine ⟨?_, rfl, rfl⟩
  intro retry_attempts retry_delay http
  unfold fetch_page_content
  cases http 0 <;> rfl

end Pro1

section Examples

example : (Modern.crawl httpRace id 3 100 10 10 "s").fetchLog = ["s"] := by
  decide

example : (Modern.crawl httpRace id 3 100 10 10 "s").db = [] := by
  decide

example :
    (Crawler2.crawl fetchEx "e.com" "" 2 none 20 "https://e.com/a").total_pages = 5 := by
  decide

example :
    ((Crawler2.crawl fetchEx "e.com" "" 2 none 20 "https://e.com/a").chunks.map
      (fun c => c.2.length)) = [2, 2, 1] := by
  decide

example : urlparse "https://e.com/a/b?q=1#f" = ⟨"https", "e.com", "/a/b"⟩ := by
  decide

end Examples
